import Mathlib

/-!
Verification development for the BLM GIS Object Catalog browser.

The repository is a static, client-rendered catalog browser in JavaScript.
This file gives a shallow embedding of its core data-modelling logic:

* the attribute cross-reference index builder of `src/unnamed/part_000`
  (`buildAttributeIndex`, `showAttributeDetail` conflict detection),
* the id-keyed and reverse indexes of `src/app.js`
  (`buildIndexes`, `getDatasetById`, `getAttributesForDataset`,
  `getDatasetsForAttribute`),
* the change-request diff of `src/app.js` (`compactObject`, `computeChanges`),
* the catalog loaders of `src/app.js`, `src/unnamed/part_000` and
  `src/unnamed/part_001` (`loadCatalog`).

JavaScript conventions used by the embedding:

* A string field that may be absent is modelled as a `String` where `""`
  stands for both the empty string and an absent/undefined field; the code
  only ever observes such fields through truthiness (`||`, `if (x)`), for
  which `""` and `undefined` coincide.
* An optionally-present non-string value is modelled as an `Option`.
* A JavaScript object used as a dictionary is modelled as a function
  `String → Option α` (or `String → List α` for the reverse index, whose
  absent entries read as `[]` through `|| []`).
* A list-valued field that may be absent is modelled as a `List`, with the
  absent field as `[]`; every use site wraps the field in `|| []` or
  behaves identically on `undefined` and `[]`.
-/

/-! ## JSON values

JSON values as produced by `JSON.parse`.  Arrays and objects are given by
mutually inductive spine types so that decidable equality can be defined by
structural recursion (and hence evaluates inside the kernel).  Object fields
are kept in insertion order, as JavaScript does. -/

mutual

inductive Json where
  | null
  | bool (b : Bool)
  | num (n : Int)
  | str (s : String)
  | arr (xs : JsonArr)
  | obj (fs : JsonObj)

inductive JsonArr where
  | nil
  | cons (hd : Json) (tl : JsonArr)

inductive JsonObj where
  | nil
  | cons (key : String) (val : Json) (tl : JsonObj)

end

mutual

def Json.decEq : (a b : Json) → Decidable (a = b)
  | .null, .null => .isTrue rfl
  | .null, .bool _ => .isFalse (fun h => Json.noConfusion h)
  | .null, .num _ => .isFalse (fun h => Json.noConfusion h)
  | .null, .str _ => .isFalse (fun h => Json.noConfusion h)
  | .null, .arr _ => .isFalse (fun h => Json.noConfusion h)
  | .null, .obj _ => .isFalse (fun h => Json.noConfusion h)
  | .bool _, .null => .isFalse (fun h => Json.noConfusion h)
  | .bool a, .bool b =>
      if h : a = b then .isTrue (h ▸ rfl) else .isFalse (fun he => h (by injection he))
  | .bool _, .num _ => .isFalse (fun h => Json.noConfusion h)
  | .bool _, .str _ => .isFalse (fun h => Json.noConfusion h)
  | .bool _, .arr _ => .isFalse (fun h => Json.noConfusion h)
  | .bool _, .obj _ => .isFalse (fun h => Json.noConfusion h)
  | .num _, .null => .isFalse (fun h => Json.noConfusion h)
  | .num _, .bool _ => .isFalse (fun h => Json.noConfusion h)
  | .num a, .num b =>
      if h : a = b then .isTrue (h ▸ rfl) else .isFalse (fun he => h (by injection he))
  | .num _, .str _ => .isFalse (fun h => Json.noConfusion h)
  | .num _, .arr _ => .isFalse (fun h => Json.noConfusion h)
  | .num _, .obj _ => .isFalse (fun h => Json.noConfusion h)
  | .str _, .null => .isFalse (fun h => Json.noConfusion h)
  | .str _, .bool _ => .isFalse (fun h => Json.noConfusion h)
  | .str _, .num _ => .isFalse (fun h => Json.noConfusion h)
  | .str a, .str b =>
      if h : a = b then .isTrue (h ▸ rfl) else .isFalse (fun he => h (by injection he))
  | .str _, .arr _ => .isFalse (fun h => Json.noConfusion h)
  | .str _, .obj _ => .isFalse (fun h => Json.noConfusion h)
  | .arr _, .null => .isFalse (fun h => Json.noConfusion h)
  | .arr _, .bool _ => .isFalse (fun h => Json.noConfusion h)
  | .arr _, .num _ => .isFalse (fun h => Json.noConfusion h)
  | .arr _, .str _ => .isFalse (fun h => Json.noConfusion h)
  | .arr xs, .arr ys =>
      match JsonArr.decEq xs ys with
      | .isTrue h => .isTrue (h ▸ rfl)
      | .isFalse h => .isFalse (fun he => h (by injection he))
  | .arr _, .obj _ => .isFalse (fun h => Json.noConfusion h)
  | .obj _, .null => .isFalse (fun h => Json.noConfusion h)
  | .obj _, .bool _ => .isFalse (fun h => Json.noConfusion h)
  | .obj _, .num _ => .isFalse (fun h => Json.noConfusion h)
  | .obj _, .str _ => .isFalse (fun h => Json.noConfusion h)
  | .obj _, .arr _ => .isFalse (fun h => Json.noConfusion h)
  | .obj fs, .obj gs =>
      match JsonObj.decEq fs gs with
      | .isTrue h => .isTrue (h ▸ rfl)
      | .isFalse h => .isFalse (fun he => h (by injection he))

def JsonArr.decEq : (a b : JsonArr) → Decidable (a = b)
  | .nil, .nil => .isTrue rfl
  | .nil, .cons _ _ => .isFalse (fun h => JsonArr.noConfusion h)
  | .cons _ _, .nil => .isFalse (fun h => JsonArr.noConfusion h)
  | .cons x xs, .cons y ys =>
      match Json.decEq x y, JsonArr.decEq xs ys with
      | .isTrue h1, .isTrue h2 => .isTrue (h1 ▸ h2 ▸ rfl)
      | .isFalse h1, _ => .isFalse (fun he => h1 (by injection he))
      | _, .isFalse h2 => .isFalse (fun he => h2 (by injection he))

def JsonObj.decEq : (a b : JsonObj) → Decidable (a = b)
  | .nil, .nil => .isTrue rfl
  | .nil, .cons _ _ _ => .isFalse (fun h => JsonObj.noConfusion h)
  | .cons _ _ _, .nil => .isFalse (fun h => JsonObj.noConfusion h)
  | .cons k v tl, .cons k2 v2 tl2 =>
      if hk : k = k2 then
        match Json.decEq v v2, JsonObj.decEq tl tl2 with
        | .isTrue h1, .isTrue h2 => .isTrue (hk ▸ h1 ▸ h2 ▸ rfl)
        | .isFalse h1, _ => .isFalse (fun he => h1 (by injection he))
        | _, .isFalse h2 => .isFalse (fun he => h2 (by injection he))
      else .isFalse (fun he => hk (by injection he))

end

instance : DecidableEq Json := Json.decEq

instance : DecidableEq JsonArr := JsonArr.decEq

instance : DecidableEq JsonObj := JsonObj.decEq

/-- Field access `o[k]` on a JSON object spine: first binding wins (objects
produced by `JSON.parse` have unique keys). -/
def JsonObj.get : JsonObj → String → Option Json
  | .nil, _ => none
  | .cons key val tl, k => if key = k then some val else tl.get k

/-- Property access `j.k` in JavaScript: `undefined` (here `none`) unless the
value is an object carrying the field. -/
def Json.getField : Json → String → Option Json
  | .obj fs, k => fs.get k
  | _, _ => none

/-- The elements of a JSON array as a Lean list. -/
def JsonArr.toList : JsonArr → List Json
  | .nil => []
  | .cons hd tl => hd :: tl.toList

/-! ## Insertion-ordered deduplication

JavaScript `Set` iterates in insertion order and keeps the first occurrence
of each element; this helper models building a `Set` from a list and reading
it back out (used for `new Set([...])` over strings and for `Set.size`). -/

def insertionDedup (l : List String) : List String :=
  l.foldl (fun acc k => if k ∈ acc then acc else acc ++ [k]) []

/-! ## Attribute cross-reference index (`src/unnamed/part_000`)

`buildAttributeIndex` walks the catalog (a JSON array of datasets, each
carrying an inline `attributes` array) and merges the per-dataset attribute
declarations into one canonical entry per attribute name. -/

/-- One allowed-value entry of an inline attribute declaration, before
normalization: a bare scalar (string or number, already coerced to its
string form), an object with optional `value`, `label` and `description`
fields (absent string fields modelled as `""`), or a value of any other
shape, which the builder skips. -/
inductive DomainRaw where
  | scalar (s : String)
  | objEntry (value : String) (label : String) (description : String)
  | otherShape
deriving DecidableEq

/-- A normalized `{value, label, description}` domain triple. -/
structure DomainValue where
  value : String
  label : String
  description : String
deriving DecidableEq

/-- One inline attribute declaration of a dataset (`dataset.attributes[i]`).
`exampleValue` models the `example` field (`none` when `undefined`/`null`,
otherwise the `String(...)` coercion of the value); `domain` is `none` when
the `domain` field is not an array. -/
structure RawAttr where
  name : String
  label : String
  type : String
  description : String
  nullable : Option Bool
  exampleValue : Option String
  domain : Option (List DomainRaw)
deriving DecidableEq

/-- The fields of a part_000 dataset record read by `buildAttributeIndex`. -/
structure DatasetP0 where
  id : String
  title : String
  attributes : List RawAttr
deriving DecidableEq

/-- One per-dataset definition record kept in `entry.definitions`. -/
structure AttrDef where
  datasetId : String
  datasetTitle : String
  type : String
  description : String
deriving DecidableEq

/-- The canonical merged attribute entry (`attributeIndex[key]`). -/
structure AttrEntry where
  name : String
  label : String
  type : String
  description : String
  nullable : Option Bool
  examples : List String
  datasets : List (String × String)
  definitions : List AttrDef
  domainValues : List DomainValue
deriving DecidableEq

/-- `dataset.title || dataset.id || '(unnamed dataset)'`. -/
def dsTitleOf (d : DatasetP0) : String :=
  if d.title ≠ "" then d.title else if d.id ≠ "" then d.id else "(unnamed dataset)"

/-- Normalization of one domain entry inside `buildAttributeIndex`:
scalars become `{value: String(v), label: String(v), description: ''}`,
objects become `{value, label: v.label || String(val || ''), description}`,
anything else is skipped (`return` inside the `forEach`). -/
def normDomain : DomainRaw → Option DomainValue
  | .scalar s => some ⟨s, s, ""⟩
  | .objEntry v l d => some ⟨v, if l = "" then v else l, d⟩
  | .otherShape => none

/-- The entry freshly created for a first declaration of an attribute
(`attributeIndex[key] = { name: attr.name, label: attr.label || attr.name,
type: attr.type || '', ... }`). -/
def freshEntry (a : RawAttr) : AttrEntry :=
  { name := a.name
    label := if a.label = "" then a.name else a.label
    type := a.type
    description := a.description
    nullable := a.nullable
    examples := []
    datasets := []
    definitions := []
    domainValues := [] }

/-- The mutations applied to the (fresh or existing) entry for one
declaration, in source order: merge `type`/`description` first-non-empty,
tighten `nullable` toward `false`, add the example to the example set, push
the `{id, title}` back-reference, push the per-dataset definition, and
append the normalized domain values. -/
def mergeEntry (d : DatasetP0) (a : RawAttr) (e0 : AttrEntry) : AttrEntry :=
  let e1 := { e0 with type := if e0.type = "" ∧ a.type ≠ "" then a.type else e0.type }
  let e2 := { e1 with
    description := if e1.description = "" ∧ a.description ≠ "" then a.description
                   else e1.description }
  let e3 := { e2 with nullable := if a.nullable = some false then some false else e2.nullable }
  let e4 := { e3 with
    examples :=
      match a.exampleValue with
      | some s => if s ∈ e3.examples then e3.examples else e3.examples ++ [s]
      | none => e3.examples }
  let e5 := { e4 with datasets := e4.datasets ++ [(d.id, dsTitleOf d)] }
  let e6 := { e5 with
    definitions := e5.definitions ++
      [({ datasetId := d.id, datasetTitle := dsTitleOf d, type := a.type,
          description := a.description } : AttrDef)] }
  { e6 with
    domainValues := e6.domainValues ++ ((a.domain.getD []).filterMap normDomain) }

/-- The body of the inner `attrs.forEach(attr => ...)` of
`buildAttributeIndex`: skip declarations without a name (`if (!key)
return`), otherwise get-or-create the entry for `attr.name`, apply the
merge mutations, and store the result back under the key. -/
def processAttr (d : DatasetP0) (idx : String → Option AttrEntry) (a : RawAttr) :
    String → Option AttrEntry :=
  if a.name = "" then idx else
  let e :=
    mergeEntry d a
      (match idx a.name with
       | some e0 => e0
       | none => freshEntry a)
  fun k => if k = a.name then some e else idx k

/-- The accumulation phase of `buildAttributeIndex`: the two nested
`forEach` loops over datasets and their inline attribute declarations. -/
def rawAttributeIndex (catalog : List DatasetP0) : String → Option AttrEntry :=
  catalog.foldl (fun idx ds => ds.attributes.foldl (processAttr ds) idx) (fun _ => none)

/-- The composite key used by the final domain-value dedup:
`` `${v.value}|${v.label || ''}` ``. -/
def domKey (v : DomainValue) : String :=
  v.value ++ "|" ++ v.label

/-- The `filter` over `domainValues` with a `seen` set of composite keys:
keeps the first occurrence of each key, in order. -/
def dedupeDomainsGo (seen : List String) : List DomainValue → List DomainValue
  | [] => []
  | v :: rest =>
      if domKey v ∈ seen then dedupeDomainsGo seen rest
      else v :: dedupeDomainsGo (domKey v :: seen) rest

/-- The final clean-up pass of `buildAttributeIndex` on one entry: the
example `Set` is read back as an array (our `examples` list already is one),
and `domainValues`, when nonempty, is deduplicated by composite key. -/
def finalizeEntry (e : AttrEntry) : AttrEntry :=
  { e with
    domainValues :=
      if e.domainValues.isEmpty then e.domainValues
      else dedupeDomainsGo [] e.domainValues }

/-- `buildAttributeIndex` of `src/unnamed/part_000`: accumulate, then run the
final clean-up over every entry of the index. -/
def buildAttributeIndex (catalog : List DatasetP0) : String → Option AttrEntry :=
  fun k => (rawAttributeIndex catalog k).map finalizeEntry

/-- Type-conflict detection of `showAttributeDetail`:
`new Set(defs.map(d => d.type).filter(t => t)).size > 1`. -/
def hasTypeConflict (e : AttrEntry) : Bool :=
  1 < (insertionDedup ((e.definitions.map AttrDef.type).filter (fun t => t ≠ ""))).length

/-! ## Specification views of the index accumulation

These definitions restate the traversal of `buildAttributeIndex` in a form
suitable for stating invariants: the nested dataset/attribute loops as one
fold over (dataset, declaration) pairs, and the list of declarations that
target a given attribute name. -/

/-- All (dataset, inline declaration) pairs of a catalog, in traversal
order. -/
def pairsOf (catalog : List DatasetP0) : List (DatasetP0 × RawAttr) :=
  catalog.flatMap (fun ds => ds.attributes.map (fun a => (ds, a)))

/-- Folding `processAttr` over a list of (dataset, declaration) pairs. -/
def processPairs (idx : String → Option AttrEntry) (L : List (DatasetP0 × RawAttr)) :
    String → Option AttrEntry :=
  L.foldl (fun i p => processAttr p.1 i p.2) idx

/-- The declarations of attribute `k`, in traversal order. -/
def declsFor (k : String) (L : List (DatasetP0 × RawAttr)) : List (DatasetP0 × RawAttr) :=
  L.filter (fun p => p.2.name = k)

/-- The first non-empty string of a list, or `""` (first-non-empty-wins). -/
def firstNonEmpty (l : List String) : String :=
  (l.find? (fun s => s ≠ "")).getD ""

/-- The entry that the accumulation phase produces for attribute `k` from
the nonempty declaration list `d0 :: rest`. -/
def entrySpec (k : String) (d0 : DatasetP0 × RawAttr) (rest : List (DatasetP0 × RawAttr)) :
    AttrEntry :=
  { name := k
    label := if d0.2.label = "" then k else d0.2.label
    type := firstNonEmpty ((d0 :: rest).map (fun p => p.2.type))
    description := firstNonEmpty ((d0 :: rest).map (fun p => p.2.description))
    nullable :=
      if some false ∈ (d0 :: rest).map (fun p => p.2.nullable) then some false
      else d0.2.nullable
    examples := insertionDedup ((d0 :: rest).filterMap (fun p => p.2.exampleValue))
    datasets := (d0 :: rest).map (fun p => (p.1.id, dsTitleOf p.1))
    definitions :=
      (d0 :: rest).map (fun p =>
        ({ datasetId := p.1.id, datasetTitle := dsTitleOf p.1, type := p.2.type,
           description := p.2.description } : AttrDef))
    domainValues :=
      (d0 :: rest).flatMap (fun p => (p.2.domain.getD []).filterMap normDomain) }

/-- The index invariant at key `k` after processing exactly the declaration
pairs `D`: no entry when `k` was never declared, otherwise the merged entry
determined by the declaration list. -/
def InvAt (k : String) (idx : String → Option AttrEntry) :
    List (DatasetP0 × RawAttr) → Prop
  | [] => idx k = none
  | d0 :: rest => idx k = some (entrySpec k d0 rest)

/-- The aggregated (pre-dedup) domain-value sequence encountered for
attribute `k` over a whole catalog, in traversal order. -/
def encounterDomain (catalog : List DatasetP0) (k : String) : List DomainValue :=
  (declsFor k (pairsOf catalog)).flatMap (fun p => (p.2.domain.getD []).filterMap normDomain)

/-! ## Catalog module of `src/app.js` (id tables and reverse index)

`buildIndexes` fills three dictionaries from the cached catalog document:
`attributeById`, `datasetById` and `datasetsByAttributeId`.  Dictionaries
are modelled as functions (see the header); list-valued reverse-index cells
read as `[]` when absent (`|| []`). -/

/-- The fields of an app.js attribute record used by the catalog module. -/
structure AttrRec where
  id : String
  label : String
deriving DecidableEq

/-- The fields of an app.js dataset record used by the catalog module. -/
structure DatasetRec where
  id : String
  title : String
  attribute_ids : List String
deriving DecidableEq

/-- The cached catalog document: `cache.attributes || []` and
`cache.datasets || []`. -/
structure CatalogCache where
  attributes : List AttrRec
  datasets : List DatasetRec
deriving DecidableEq

/-- Dictionary write `m[k] = v`. -/
def strMapUpd {α : Type} (m : String → Option α) (k : String) (v : α) :
    String → Option α :=
  fun x => if x = k then some v else m x

/-- Reverse-index push: `if (!m[k]) m[k] = []; m[k].push(v)`. -/
def listMapPush {α : Type} (m : String → List α) (k : String) (v : α) :
    String → List α :=
  fun x => if x = k then m k ++ [v] else m x

/-- `buildIndexes` attribute loop: `if (attr.id) attributeById[attr.id] = attr`. -/
def attributeByIdOf (cache : CatalogCache) : String → Option AttrRec :=
  cache.attributes.foldl (fun m a => if a.id ≠ "" then strMapUpd m a.id a else m)
    (fun _ => none)

/-- One step of the `buildIndexes` dataset loop: conditionally store the
record under its id and push it onto the reverse-index cell of each entry
of `ds.attribute_ids || []`. -/
def datasetStep (t : (String → Option DatasetRec) × (String → List DatasetRec))
    (ds : DatasetRec) : (String → Option DatasetRec) × (String → List DatasetRec) :=
  (if ds.id ≠ "" then strMapUpd t.1 ds.id ds else t.1,
   ds.attribute_ids.foldl (fun r i => listMapPush r i ds) t.2)

/-- `buildIndexes` dataset loop: the id table and the reverse index. -/
def datasetTablesOf (cache : CatalogCache) :
    (String → Option DatasetRec) × (String → List DatasetRec) :=
  cache.datasets.foldl datasetStep (fun _ => none, fun _ => [])

/-- `getAttributeById(id)`: `attributeById[id] || null`. -/
def getAttributeById (cache : CatalogCache) (id : String) : Option AttrRec :=
  attributeByIdOf cache id

/-- `getDatasetById(id)`: `datasetById[id] || null`. -/
def getDatasetById (cache : CatalogCache) (id : String) : Option DatasetRec :=
  (datasetTablesOf cache).1 id

/-- `getAttributesForDataset(dataset)`: map the dataset's `attribute_ids`
through the attribute table and drop the misses (`.filter(Boolean)`). -/
def getAttributesForDataset (cache : CatalogCache) (ds : DatasetRec) : List AttrRec :=
  (ds.attribute_ids.map (fun i => attributeByIdOf cache i)).filterMap (fun o => o)

/-- `getDatasetsForAttribute(attrId)`: `datasetsByAttributeId[attrId] || []`. -/
def getDatasetsForAttribute (cache : CatalogCache) (attrId : String) : List DatasetRec :=
  (datasetTablesOf cache).2 attrId

/-! ## Change-request diff of `src/app.js`

An entity (a dataset or attribute draft) is a JavaScript object, modelled
as its insertion-ordered key/value list; `Object.keys` have no duplicates
in JavaScript, but no lemma below needs that assumption. -/

/-- Whether `compactObject` keeps a present value: it drops `null`
(`undefined` is absence itself), empty arrays, and strings that are blank
after trimming — `v.trim() === ''` holds exactly when every character of
the string is whitespace. -/
def compactKeep : Json → Bool
  | .null => false
  | .arr .nil => false
  | .str s => !(s.data.all Char.isWhitespace)
  | _ => true

/-- `compactObject(obj)`: the kept key/value pairs, in key order. -/
def compactObject (o : List (String × Json)) : List (String × Json) :=
  o.filter (fun p => compactKeep p.2)

/-- One `{key, from, to}` change record of `computeChanges` (`from`/`to`
are renamed since `from` is reserved in Lean; `none` is `undefined`). -/
structure Change where
  key : String
  fromValue : Option Json
  toValue : Option Json
deriving DecidableEq

/-- `computeChanges(original, updated)`: iterate the `Set` union of both
key lists and emit a record for each key whose values differ.  The source
compares `JSON.stringify(a) !== JSON.stringify(b)`; on this model of JSON
values `stringify` is injective and `stringify(undefined)` is `undefined`,
so stringify-inequality is structural inequality of the two
`Option Json`s. -/
def computeChanges (original updated : List (String × Json)) : List Change :=
  let keys := insertionDedup (original.map Prod.fst ++ updated.map Prod.fst)
  keys.filterMap (fun k =>
    let a := original.lookup k
    let b := updated.lookup k
    if a ≠ b then some ⟨k, a, b⟩ else none)

/-! ## Catalog loaders

All three source files fetch `data/catalog.json` once.  A fetch outcome is
modelled as a status flag plus the JSON parse result of the body (`none`
when the body is not valid JSON, in which case `resp.json()` rejects). -/

/-- A fetch response: `resp.ok`, `resp.status`, and the parse of the body. -/
structure Response where
  ok : Bool
  status : Nat
  body : Option Json
deriving DecidableEq

/-- Failure of a load attempt as seen by an awaiting caller: the `throw` on
a non-ok status, or the rejection of `resp.json()` on an unparseable body. -/
inductive LoadError where
  | httpStatus (status : Nat)
  | malformedJson
deriving DecidableEq

/-- `loadCatalog` of `src/app.js` (first call, empty cache): throws on a
non-ok response, rejects when the body cannot be parsed, and otherwise
caches the parsed value unchanged — there is no top-level shape check. -/
def loadCatalogAppjs (r : Response) : Except LoadError Json :=
  if !r.ok then .error (.httpStatus r.status)
  else
    match r.body with
    | none => .error .malformedJson
    | some j => .ok j

/-- How app.js consumers read `cache.datasets`: `(cache.datasets || [])`.
`some l` is the effective array; `none` models the `TypeError` that
`forEach` would throw on a truthy non-array value. -/
def appjsDatasetsOf (cache : Json) : Option (List Json) :=
  match cache.getField "datasets" with
  | none => some []
  | some .null => some []
  | some (.bool false) => some []
  | some (.num 0) => some []
  | some (.str "") => some []
  | some (.arr l) => some l.toList
  | some _ => none

/-- How app.js consumers read `cache.attributes`: `(cache.attributes || [])`. -/
def appjsAttributesOf (cache : Json) : Option (List Json) :=
  match cache.getField "attributes" with
  | none => some []
  | some .null => some []
  | some (.bool false) => some []
  | some (.num 0) => some []
  | some (.str "") => some []
  | some (.arr l) => some l.toList
  | some _ => none

/-- The `objects` normalization of `loadCatalog` in `src/unnamed/part_001`:
`Array.isArray(raw.objects) ? raw.objects : Array.isArray(raw.datasets) ?
raw.datasets : []`. -/
def p001ObjectsOf (raw : Json) : List Json :=
  match raw.getField "objects" with
  | some (.arr l) => l.toList
  | _ =>
      match raw.getField "datasets" with
      | some (.arr l) => l.toList
      | _ => []

/-- The `attributes` normalization of `loadCatalog` in
`src/unnamed/part_001`: `Array.isArray(raw.attributes) ? raw.attributes : []`. -/
def p001AttributesOf (raw : Json) : List Json :=
  match raw.getField "attributes" with
  | some (.arr l) => l.toList
  | _ => []

/-- `loadCatalog` of `src/unnamed/part_001` (first call): throws on a
non-ok response, rejects on an unparseable body, and otherwise caches the
normalized `objects`/`attributes` lists; any parsed value is accepted. -/
def loadCatalogP001 (r : Response) : Except LoadError (List Json × List Json) :=
  if !r.ok then .error (.httpStatus r.status)
  else
    match r.body with
    | none => .error .malformedJson
    | some raw => .ok (p001ObjectsOf raw, p001AttributesOf raw)

/-- The error messages `loadCatalog` of `src/unnamed/part_000` writes into
the dataset-list element. -/
inductive P0Msg where
  | httpError (status : Nat)
  | notAnArray
  | consoleError
deriving DecidableEq

/-- What a `loadCatalog` run of `src/unnamed/part_000` leaves behind:
the new value of the module-level `catalog` (or `none` when the run bails
out, leaving the previous value — initially `[]` — in place) and the error
message written to the UI, if any.  The function itself always resolves
with `undefined`: every failure path either returns early before throwing
or is swallowed by the surrounding `try`/`catch`. -/
structure P0Outcome where
  newCatalog : Option (List Json)
  uiMessage : Option P0Msg
deriving DecidableEq

/-- The `try` block of `loadCatalog` in `src/unnamed/part_000`: an early
`return` (with a UI message) on a non-ok status, a thrown rejection on an
unparseable body, an early `return` (with a UI message) when the top level
is not an array, and success otherwise. -/
def p0Attempt (r : Response) : Except Unit P0Outcome :=
  if !r.ok then .ok ⟨none, some (.httpError r.status)⟩
  else
    match r.body with
    | none => .error ()
    | some (.arr l) => .ok ⟨some l.toList, none⟩
    | some _ => .ok ⟨none, some .notAnArray⟩

/-- `loadCatalog` of `src/unnamed/part_000`: the `try` block with its
`catch`, which logs, writes a generic UI message and returns normally. -/
def loadCatalogP0 (r : Response) : P0Outcome :=
  match p0Attempt r with
  | .ok u => u
  | .error _ => ⟨none, some .consoleError⟩

/-! ## Concrete fixtures used by witnesses and counterexamples -/

/-- A dataset declaring an enumerated `status` attribute with the domain
values `[{value:"1",label:"Yes"}, {value:"1",label:"Yes"},
{value:"1",label:"yes"}]` of the domain-dedup scenario. -/
def exDomainDS : DatasetP0 :=
  { id := "d1", title := "Parks",
    attributes :=
      [{ name := "status", label := "", type := "", description := "",
         nullable := none, exampleValue := none,
         domain := some [.objEntry "1" "Yes" "", .objEntry "1" "Yes" "",
                         .objEntry "1" "yes" ""] }] }

/-- The attribute entry `buildAttributeIndex [exDomainDS]` builds for
`status`. -/
def exDomainEntry : AttrEntry :=
  { name := "status", label := "status", type := "", description := "",
    nullable := none, examples := [], datasets := [("d1", "Parks")],
    definitions := [{ datasetId := "d1", datasetTitle := "Parks", type := "",
                      description := "" }],
    domainValues := [⟨"1", "Yes", ""⟩, ⟨"1", "yes", ""⟩] }

/-- An app.js dataset record listing the same attribute id twice. -/
def c4DupDS : DatasetRec := { id := "d1", title := "Trails", attribute_ids := ["x", "x"] }

/-- A catalog cache in which `c4DupDS` references the existing attribute
`x` twice. -/
def c4Cache : CatalogCache :=
  { attributes := [{ id := "x", label := "X label" }], datasets := [c4DupDS] }

/-- Dataset A of the label counterexample: first declarer of `X`, with no
label of its own. -/
def c8A : DatasetP0 :=
  { id := "a", title := "A",
    attributes := [{ name := "X", label := "", type := "", description := "",
                     nullable := none, exampleValue := none, domain := none }] }

/-- Dataset B of the label counterexample: second declarer of `X`,
supplying the (first non-empty) label `"Nice"`. -/
def c8B : DatasetP0 :=
  { id := "b", title := "B",
    attributes := [{ name := "X", label := "Nice", type := "", description := "",
                     nullable := none, exampleValue := none, domain := none }] }

/-- Two dataset records sharing the id `dup`, both using attribute `x`. -/
def c9First : DatasetRec := { id := "dup", title := "First", attribute_ids := ["x"] }

/-- See `c9First`. -/
def c9Second : DatasetRec := { id := "dup", title := "Second", attribute_ids := ["x"] }

/-- A catalog cache with a duplicated dataset id. -/
def c9Cache : CatalogCache :=
  { attributes := [{ id := "x", label := "X label" }], datasets := [c9First, c9Second] }

/-- A dataset record without an id that still references attribute `x`. -/
def c10NoIdDS : DatasetRec := { id := "", title := "No id", attribute_ids := ["x"] }

/-- A catalog cache containing only the id-less record `c10NoIdDS`. -/
def c10Cache : CatalogCache :=
  { attributes := [{ id := "x", label := "X label" }], datasets := [c10NoIdDS] }

/-- A dataset record whose only attribute reference is dangling. -/
def c7GhostDS : DatasetRec := { id := "g", title := "Ghost", attribute_ids := ["ghost"] }

/-- A catalog cache whose attribute table does not contain `ghost`. -/
def c7Cache : CatalogCache :=
  { attributes := [{ id := "real", label := "Real" }], datasets := [c7GhostDS] }

/-! ## Theorems

Helper lemmas first, then one theorem per specification claim (with its
witness or counterexample). -/

theorem insertionDedup_go_mem (l : List String) :
    ∀ (acc : List String) (a : String),
      a ∈ l.foldl (fun acc k => if k ∈ acc then acc else acc ++ [k]) acc ↔ a ∈ acc ∨ a ∈ l := by
  induction l with
  | nil => intro acc a; simp
  | cons x xs ih =>
      intro acc a
      simp only [List.foldl_cons]
      by_cases hx : x ∈ acc
      · rw [if_pos hx, ih]
        constructor
        · rintro (h | h)
          · exact Or.inl h
          · exact Or.inr (List.mem_cons_of_mem _ h)
        · rintro (h | h)
          · exact Or.inl h
          · rcases List.mem_cons.mp h with h | h
            · exact Or.inl (h ▸ hx)
            · exact Or.inr h
      · rw [if_neg hx, ih]
        constructor
        · rintro (h | h)
          · rcases List.mem_append.mp h with h | h
            · exact Or.inl h
            · simp at h
              exact Or.inr (h ▸ List.mem_cons_self _ _)
          · exact Or.inr (List.mem_cons_of_mem _ h)
        · rintro (h | h)
          · exact Or.inl (List.mem_append.mpr (Or.inl h))
          · rcases List.mem_cons.mp h with h | h
            · exact Or.inl (by simp [h])
            · exact Or.inr h

theorem mem_insertionDedup (l : List String) (a : String) :
    a ∈ insertionDedup l ↔ a ∈ l := by
  rw [insertionDedup, insertionDedup_go_mem]
  simp

theorem insertionDedup_go_nodup (l : List String) :
    ∀ acc : List String, acc.Nodup →
      (l.foldl (fun acc k => if k ∈ acc then acc else acc ++ [k]) acc).Nodup := by
  induction l with
  | nil => intro acc h; simpa using h
  | cons x xs ih =>
      intro acc hacc
      simp only [List.foldl_cons]
      by_cases hx : x ∈ acc
      · rw [if_pos hx]; exact ih _ hacc
      · rw [if_neg hx]
        refine ih _ ?_
        simpa [List.nodup_append] using ⟨hacc, hx⟩

theorem insertionDedup_nodup (l : List String) : (insertionDedup l).Nodup :=
  insertionDedup_go_nodup l [] List.nodup_nil

theorem insertionDedup_append (l l2 : List String) :
    insertionDedup (l ++ l2) =
      l2.foldl (fun acc k => if k ∈ acc then acc else acc ++ [k]) (insertionDedup l) := by
  simp [insertionDedup, List.foldl_append]

theorem firstNonEmpty_nil : firstNonEmpty [] = "" := rfl

theorem firstNonEmpty_singleton (s : String) : firstNonEmpty [s] = s := by
  by_cases h : s = ""
  · simp [firstNonEmpty, h]
  · simp [firstNonEmpty, List.find?, h]

theorem firstNonEmpty_cons (x : String) (t : List String) :
    firstNonEmpty (x :: t) = if x = "" then firstNonEmpty t else x := by
  by_cases h : x = ""
  · simp [firstNonEmpty, List.find?, h]
  · simp [firstNonEmpty, List.find?, h]

theorem firstNonEmpty_append_single (l : List String) (s : String) :
    firstNonEmpty (l ++ [s]) =
      if firstNonEmpty l = "" ∧ s ≠ "" then s else firstNonEmpty l := by
  induction l with
  | nil =>
      by_cases hs : s = ""
      · simp [firstNonEmpty_singleton, firstNonEmpty_nil, hs]
      · simp [firstNonEmpty_singleton, firstNonEmpty_nil, hs]
  | cons x xs ih =>
      by_cases hx : x = ""
      · simpa [firstNonEmpty_cons, hx] using ih
      · simp [firstNonEmpty_cons, hx]

theorem processAttr_apply_ne (d : DatasetP0) (idx : String → Option AttrEntry)
    (a : RawAttr) (k : String) (h : a.name ≠ k) : processAttr d idx a k = idx k := by
  unfold processAttr
  by_cases h0 : a.name = ""
  · rw [if_pos h0]
  · rw [if_neg h0]
    exact if_neg (fun hk => h hk.symm)

theorem processAttr_apply_self (d : DatasetP0) (idx : String → Option AttrEntry)
    (a : RawAttr) (h0 : a.name ≠ "") :
    processAttr d idx a a.name =
      some (mergeEntry d a
        (match idx a.name with
         | some e0 => e0
         | none => freshEntry a)) := by
  unfold processAttr
  rw [if_neg h0]
  rw [if_pos rfl]

theorem mergeEntry_fresh (k : String) (d : DatasetP0) (a : RawAttr) (ha : a.name = k) :
    mergeEntry d a (freshEntry a) = entrySpec k (d, a) [] := by
  subst ha
  unfold mergeEntry freshEntry entrySpec
  dsimp only
  simp only [AttrEntry.mk.injEq]
  refine ⟨trivial, trivial, ?_, ?_, ?_, ?_, by simp, by simp, by simp⟩
  · by_cases h : a.type = "" <;> simp [firstNonEmpty_singleton, h]
  · by_cases h : a.description = "" <;> simp [firstNonEmpty_singleton, h]
  · by_cases h : a.nullable = some false
    · simp [h]
    · simp only [if_neg h, List.map_cons, List.map_nil, List.mem_singleton]
      rw [if_neg (fun hh : some false = a.nullable => h hh.symm)]
  · cases h : a.exampleValue <;> simp [insertionDedup, h]

theorem mergeEntry_grow (k : String) (d : DatasetP0) (a : RawAttr)
    (d0 : DatasetP0 × RawAttr) (rest : List (DatasetP0 × RawAttr)) :
    mergeEntry d a (entrySpec k d0 rest) = entrySpec k d0 (rest ++ [(d, a)]) := by
  unfold mergeEntry entrySpec
  dsimp only
  simp only [AttrEntry.mk.injEq]
  have hsplit : ∀ {α : Type} (f : DatasetP0 × RawAttr → α),
      List.map f (d0 :: (rest ++ [(d, a)])) = List.map f (d0 :: rest) ++ [f (d, a)] := by
    intro α f; simp
  refine ⟨trivial, trivial, ?_, ?_, ?_, ?_, ?_, ?_, ?_⟩
  · rw [hsplit, firstNonEmpty_append_single]
  · rw [hsplit, firstNonEmpty_append_single]
  · rw [hsplit]
    by_cases hn : a.nullable = some false
    · simp [hn]
    · have hn2 : ¬(some false = a.nullable) := fun hh => hn hh.symm
      simp only [if_neg hn]
      by_cases hm : some false ∈ List.map (fun p => p.2.nullable) (d0 :: rest)
      · have hm2 : some false ∈ List.map (fun p => p.2.nullable) (d0 :: rest) ++ [a.nullable] :=
          List.mem_append.mpr (Or.inl hm)
        rw [if_pos hm, if_pos hm2]
      · have hm2 : some false ∉ List.map (fun p => p.2.nullable) (d0 :: rest) ++ [a.nullable] := by
          intro h
          rcases List.mem_append.mp h with h | h
          · exact hm h
          · rw [List.mem_singleton] at h
            exact hn2 h
        rw [if_neg hm, if_neg hm2]
  · have hfsplit : (d0 :: (rest ++ [(d, a)])).filterMap (fun p => p.2.exampleValue) =
        (d0 :: rest).filterMap (fun p => p.2.exampleValue) ++
          ([(d, a)].filterMap (fun p => p.2.exampleValue)) := by
      rw [← List.cons_append, List.filterMap_append]
    rw [hfsplit]
    cases hx : a.exampleValue with
    | none => simp [hx]
    | some s => simp [hx, insertionDedup_append]
  · rw [hsplit]
  · rw [hsplit]
  · have hdsplit : (d0 :: (rest ++ [(d, a)])).flatMap
        (fun p => (p.2.domain.getD []).filterMap normDomain) =
        (d0 :: rest).flatMap (fun p => (p.2.domain.getD []).filterMap normDomain) ++
          ((a.domain.getD []).filterMap normDomain) := by
      rw [← List.cons_append, List.flatMap_append]
      simp
    rw [hdsplit]

theorem invAt_congr (k : String) (idx1 idx2 : String → Option AttrEntry)
    (h : idx1 k = idx2 k) (D : List (DatasetP0 × RawAttr)) :
    InvAt k idx1 D → InvAt k idx2 D := by
  cases D with
  | nil =>
      intro h2
      show idx2 k = none
      rw [← h]
      exact h2
  | cons d0 rest =>
      intro h2
      show idx2 k = some (entrySpec k d0 rest)
      rw [← h]
      exact h2

theorem invAt_step (k : String) (hk : k ≠ "") (d : DatasetP0) (a : RawAttr)
    (ha : a.name = k) (idx : String → Option AttrEntry) (D : List (DatasetP0 × RawAttr))
    (h : InvAt k idx D) : InvAt k (processAttr d idx a) (D ++ [(d, a)]) := by
  have h0 : a.name ≠ "" := by rw [ha]; exact hk
  have hself := processAttr_apply_self d idx a h0
  cases D with
  | nil =>
      have h1 : idx a.name = none := by rw [ha]; exact h
      rw [h1] at hself
      rw [ha] at hself
      show processAttr d idx a k = some (entrySpec k (d, a) [])
      rw [hself]
      show some (mergeEntry d a (freshEntry a)) = some (entrySpec k (d, a) [])
      rw [mergeEntry_fresh k d a ha]
  | cons d0 rest =>
      have h1 : idx a.name = some (entrySpec k d0 rest) := by rw [ha]; exact h
      rw [h1] at hself
      rw [ha] at hself
      show processAttr d idx a k = some (entrySpec k d0 (rest ++ [(d, a)]))
      rw [hself]
      show some (mergeEntry d a (entrySpec k d0 rest)) = some (entrySpec k d0 (rest ++ [(d, a)]))
      rw [mergeEntry_grow k d a d0 rest]

theorem invAt_processPairs (k : String) (hk : k ≠ "") (L : List (DatasetP0 × RawAttr)) :
    ∀ (idx : String → Option AttrEntry) (D : List (DatasetP0 × RawAttr)),
      InvAt k idx D → InvAt k (processPairs idx L) (D ++ declsFor k L) := by
  induction L with
  | nil => intro idx D h; simpa [processPairs, declsFor] using h
  | cons p L ih =>
      intro idx D h
      have hfold : processPairs idx (p :: L) = processPairs (processAttr p.1 idx p.2) L := rfl
      rw [hfold]
      by_cases hp : p.2.name = k
      · have h2 : InvAt k (processAttr p.1 idx p.2) (D ++ [(p.1, p.2)]) :=
          invAt_step k hk p.1 p.2 hp idx D h
        have h3 := ih (processAttr p.1 idx p.2) (D ++ [(p.1, p.2)]) h2
        have hdecls : declsFor k (p :: L) = p :: declsFor k L := by
          simp [declsFor, List.filter_cons, hp]
        rw [hdecls]
        have happ : (D ++ [(p.1, p.2)]) ++ declsFor k L = D ++ (p :: declsFor k L) := by
          simp [List.append_assoc]
        rw [happ] at h3
        exact h3
      · have h2 : processAttr p.1 idx p.2 k = idx k :=
          processAttr_apply_ne p.1 idx p.2 k hp
        have h3 := ih (processAttr p.1 idx p.2) D (invAt_congr k idx _ h2.symm D h)
        have hdecls : declsFor k (p :: L) = declsFor k L := by
          simp [declsFor, List.filter_cons, hp]
        rw [hdecls]
        exact h3

theorem rawAttributeIndex_eq_processPairs (catalog : List DatasetP0) :
    rawAttributeIndex catalog = processPairs (fun _ => none) (pairsOf catalog) := by
  have main : ∀ (cat : List DatasetP0) (idx : String → Option AttrEntry),
      cat.foldl (fun idx ds => ds.attributes.foldl (processAttr ds) idx) idx =
        processPairs idx (pairsOf cat) := by
    intro cat
    induction cat with
    | nil => intro idx; simp [processPairs, pairsOf]
    | cons ds rest ih =>
        intro idx
        rw [List.foldl_cons, ih]
        have hinner : ds.attributes.foldl (processAttr ds) idx =
            processPairs idx (ds.attributes.map (fun a => (ds, a))) := by
          rw [processPairs, List.foldl_map]
        rw [hinner]
        have hpairs : pairsOf (ds :: rest) =
            ds.attributes.map (fun a => (ds, a)) ++ pairsOf rest := by
          simp [pairsOf]
        rw [hpairs, processPairs, processPairs, processPairs, List.foldl_append]
  exact main catalog _

theorem rawAttributeIndex_spec_nil (catalog : List DatasetP0) (k : String) (hk : k ≠ "")
    (h : declsFor k (pairsOf catalog) = []) : rawAttributeIndex catalog k = none := by
  have hinv := invAt_processPairs k hk (pairsOf catalog) (fun _ => none) [] rfl
  rw [List.nil_append, h] at hinv
  rw [rawAttributeIndex_eq_processPairs]
  exact hinv

theorem rawAttributeIndex_spec_cons (catalog : List DatasetP0) (k : String) (hk : k ≠ "")
    (d0 : DatasetP0 × RawAttr) (rest : List (DatasetP0 × RawAttr))
    (h : declsFor k (pairsOf catalog) = d0 :: rest) :
    rawAttributeIndex catalog k = some (entrySpec k d0 rest) := by
  have hinv := invAt_processPairs k hk (pairsOf catalog) (fun _ => none) [] rfl
  rw [List.nil_append, h] at hinv
  rw [rawAttributeIndex_eq_processPairs]
  exact hinv

theorem buildAttributeIndex_spec_cons (catalog : List DatasetP0) (k : String) (hk : k ≠ "")
    (d0 : DatasetP0 × RawAttr) (rest : List (DatasetP0 × RawAttr))
    (h : declsFor k (pairsOf catalog) = d0 :: rest) :
    buildAttributeIndex catalog k = some (finalizeEntry (entrySpec k d0 rest)) := by
  rw [buildAttributeIndex, rawAttributeIndex_spec_cons catalog k hk d0 rest h]
  rfl

theorem finalizeEntry_name (e : AttrEntry) : (finalizeEntry e).name = e.name := rfl

theorem finalizeEntry_label (e : AttrEntry) : (finalizeEntry e).label = e.label := rfl

theorem finalizeEntry_type (e : AttrEntry) : (finalizeEntry e).type = e.type := rfl

theorem finalizeEntry_description (e : AttrEntry) :
    (finalizeEntry e).description = e.description := rfl

theorem finalizeEntry_nullable (e : AttrEntry) : (finalizeEntry e).nullable = e.nullable := rfl

theorem finalizeEntry_definitions (e : AttrEntry) :
    (finalizeEntry e).definitions = e.definitions := rfl

theorem nullable_tightened (catalog : List DatasetP0) (Y : String) (hY : Y ≠ "")
    (B : DatasetP0) (decl : RawAttr) (hmem : B ∈ catalog) (hdecl : decl ∈ B.attributes)
    (hname : decl.name = Y) (hnull : decl.nullable = some false) :
    ∃ e, buildAttributeIndex catalog Y = some e ∧ e.nullable = some false := by
  have hpair : (B, decl) ∈ pairsOf catalog := by
    rw [pairsOf]
    refine List.mem_flatMap.mpr ⟨B, hmem, ?_⟩
    exact List.mem_map.mpr ⟨decl, hdecl, rfl⟩
  have hdf : (B, decl) ∈ declsFor Y (pairsOf catalog) := by
    rw [declsFor]
    refine List.mem_filter.mpr ⟨hpair, ?_⟩
    simp [hname]
  cases hD : declsFor Y (pairsOf catalog) with
  | nil =>
      rw [hD] at hdf
      exact absurd hdf (List.not_mem_nil _)
  | cons d0 rest =>
      refine ⟨finalizeEntry (entrySpec Y d0 rest),
        buildAttributeIndex_spec_cons catalog Y hY d0 rest hD, ?_⟩
      rw [finalizeEntry_nullable]
      rw [hD] at hdf
      have hm : some false ∈ List.map (fun p => p.2.nullable) (d0 :: rest) :=
        List.mem_map.mpr ⟨(B, decl), hdf, hnull⟩
      show (entrySpec Y d0 rest).nullable = some false
      simp only [entrySpec]
      rw [if_pos hm]

/-- Claim C1: when dataset A declares attribute X with type `string` and
dataset B, indexed after A, declares X with type `integer`, the built
index's canonical type for X is `string` (first non-empty value, never
overwritten), its `definitions` list contains both the `{datasetId: A,
type: "string"}` and the `{datasetId: B, type: "integer"}` entries, and
`showAttributeDetail` reports a type conflict (more than one distinct
non-empty type across the definitions). -/
theorem claim_C1 (X : String) (hX : X ≠ "")
    (aid atit alab adesc : String) (anul : Option Bool) (aex : Option String)
    (adom : Option (List DomainRaw))
    (bid btit blab bdesc : String) (bnul : Option Bool) (bex : Option String)
    (bdom : Option (List DomainRaw)) :
    ∃ e, buildAttributeIndex
        [{ id := aid, title := atit, attributes :=
             [{ name := X, label := alab, type := "string", description := adesc,
                nullable := anul, exampleValue := aex, domain := adom }] },
         { id := bid, title := btit, attributes :=
             [{ name := X, label := blab, type := "integer", description := bdesc,
                nullable := bnul, exampleValue := bex, domain := bdom }] }] X = some e ∧
      e.type = "string" ∧
      (∃ df ∈ e.definitions, df.datasetId = aid ∧ df.type = "string") ∧
      (∃ df ∈ e.definitions, df.datasetId = bid ∧ df.type = "integer") ∧
      hasTypeConflict e = true := by
  have hdecls : declsFor X (pairsOf
      [{ id := aid, title := atit, attributes :=
           [{ name := X, label := alab, type := "string", description := adesc,
              nullable := anul, exampleValue := aex, domain := adom }] },
       { id := bid, title := btit, attributes :=
           [{ name := X, label := blab, type := "integer", description := bdesc,
              nullable := bnul, exampleValue := bex, domain := bdom }] }]) =
      [({ id := aid, title := atit, attributes :=
            [{ name := X, label := alab, type := "string", description := adesc,
               nullable := anul, exampleValue := aex, domain := adom }] },
        { name := X, label := alab, type := "string", description := adesc,
          nullable := anul, exampleValue := aex, domain := adom }),
       ({ id := bid, title := btit, attributes :=
            [{ name := X, label := blab, type := "integer", description := bdesc,
               nullable := bnul, exampleValue := bex, domain := bdom }] },
        { name := X, label := blab, type := "integer", description := bdesc,
          nullable := bnul, exampleValue := bex, domain := bdom })] := by
    simp [pairsOf, declsFor]
  refine ⟨_, buildAttributeIndex_spec_cons _ X hX _ _ hdecls, ?_, ?_, ?_, ?_⟩
  · rw [finalizeEntry_type]
    rfl
  · rw [finalizeEntry_definitions]
    exact ⟨_, List.mem_cons_self _ _, rfl, rfl⟩
  · rw [finalizeEntry_definitions]
    exact ⟨_, List.mem_cons_of_mem _ (List.mem_cons_self _ _), rfl, rfl⟩
  · rfl

/-- Witness for C1 at a concrete catalog. -/
theorem claim_C1_witness :
    ∃ e, buildAttributeIndex
        [{ id := "parks", title := "Parks", attributes :=
             [{ name := "X", label := "", type := "string", description := "",
                nullable := none, exampleValue := none, domain := none }] },
         { id := "trails", title := "Trails", attributes :=
             [{ name := "X", label := "", type := "integer", description := "",
                nullable := none, exampleValue := none, domain := none }] }] "X" = some e ∧
      e.type = "string" ∧
      (∃ df ∈ e.definitions, df.datasetId = "parks" ∧ df.type = "string") ∧
      (∃ df ∈ e.definitions, df.datasetId = "trails" ∧ df.type = "integer") ∧
      hasTypeConflict e = true :=
  claim_C1 "X" (by decide) "parks" "Parks" "" "" none none none
    "trails" "Trails" "" "" none none none

/-- Claim C2: an attribute Y declared `nullable: true` in dataset A and
`nullable: false` in dataset B resolves to canonical `nullable = false`
whichever of the two processing orders is used; and in general, whenever
any dataset of the catalog asserts `nullable: false` for Y, the built
entry's nullable is `false` — no later (or earlier) dataset loosens it. -/
theorem claim_C2 (Y : String) (hY : Y ≠ "")
    (aid atit alab atyp adesc : String) (aex : Option String) (adom : Option (List DomainRaw))
    (bid btit blab btyp bdesc : String) (bex : Option String) (bdom : Option (List DomainRaw)) :
    (∃ e, buildAttributeIndex
        [{ id := aid, title := atit, attributes :=
             [{ name := Y, label := alab, type := atyp, description := adesc,
                nullable := some true, exampleValue := aex, domain := adom }] },
         { id := bid, title := btit, attributes :=
             [{ name := Y, label := blab, type := btyp, description := bdesc,
                nullable := some false, exampleValue := bex, domain := bdom }] }] Y = some e ∧
       e.nullable = some false) ∧
    (∃ e, buildAttributeIndex
        [{ id := bid, title := btit, attributes :=
             [{ name := Y, label := blab, type := btyp, description := bdesc,
                nullable := some false, exampleValue := bex, domain := bdom }] },
         { id := aid, title := atit, attributes :=
             [{ name := Y, label := alab, type := atyp, description := adesc,
                nullable := some true, exampleValue := aex, domain := adom }] }] Y = some e ∧
       e.nullable = some false) ∧
    (∀ (l₁ l₂ : List DatasetP0) (bas₁ bas₂ : List RawAttr),
       ∃ e, buildAttributeIndex
           (l₁ ++ ({ id := bid, title := btit, attributes :=
               bas₁ ++ ({ name := Y, label := blab, type := btyp, description := bdesc,
                          nullable := some false, exampleValue := bex,
                          domain := bdom } : RawAttr) :: bas₂ } : DatasetP0) :: l₂) Y =
           some e ∧
         e.nullable = some false) := by
  refine ⟨?_, ?_, ?_⟩
  · exact nullable_tightened _ Y hY
      { id := bid, title := btit, attributes :=
          [{ name := Y, label := blab, type := btyp, description := bdesc,
             nullable := some false, exampleValue := bex, domain := bdom }] }
      { name := Y, label := blab, type := btyp, description := bdesc,
        nullable := some false, exampleValue := bex, domain := bdom }
      (by simp) (by simp) rfl rfl
  · exact nullable_tightened _ Y hY
      { id := bid, title := btit, attributes :=
          [{ name := Y, label := blab, type := btyp, description := bdesc,
             nullable := some false, exampleValue := bex, domain := bdom }] }
      { name := Y, label := blab, type := btyp, description := bdesc,
        nullable := some false, exampleValue := bex, domain := bdom }
      (by simp) (by simp) rfl rfl
  · intro l₁ l₂ bas₁ bas₂
    exact nullable_tightened _ Y hY
      { id := bid, title := btit, attributes :=
          bas₁ ++ ({ name := Y, label := blab, type := btyp, description := bdesc,
                     nullable := some false, exampleValue := bex,
                     domain := bdom } : RawAttr) :: bas₂ }
      { name := Y, label := blab, type := btyp, description := bdesc,
        nullable := some false, exampleValue := bex, domain := bdom }
      (by simp) (by simp) rfl rfl

/-- Witness for C2 at a concrete pair of datasets. -/
theorem claim_C2_witness :
    ∃ e, buildAttributeIndex
        [{ id := "parks", title := "Parks", attributes :=
             [{ name := "Y", label := "", type := "", description := "",
                nullable := some true, exampleValue := none, domain := none }] },
         { id := "trails", title := "Trails", attributes :=
             [{ name := "Y", label := "", type := "", description := "",
                nullable := some false, exampleValue := none, domain := none }] }] "Y" =
        some e ∧
      e.nullable = some false :=
  (claim_C2 "Y" (by decide) "parks" "Parks" "" "" "" none none
    "trails" "Trails" "" "" "" none none).1

/-- Counterexample to C8 as stated: in `[c8A, c8B]`, the first non-empty
label supplied for `X` is `"Nice"` (from B; A supplies none), yet the
built entry's canonical label is `"X"` — the creation-time fallback to the
attribute name — because the builder never revisits `label`. -/
theorem claim_C8_counterexample :
    (buildAttributeIndex [c8A, c8B] "X").map AttrEntry.label = some "X" ∧
    firstNonEmpty ((declsFor "X" (pairsOf [c8A, c8B])).map (fun p => p.2.label)) = "Nice" ∧
    "X" ≠ "Nice" := by
  refine ⟨?_, ?_, by decide⟩
  · rfl
  · rfl

/-- Claim C8 (amended): `type` and `description` are resolved
first-non-empty-wins across the declarations in processing order, but
`label` is fixed when the entry is created: it is the first declaration's
label, falling back to the attribute name when that declaration has none,
and later datasets never change it. -/
theorem claim_C8 (catalog : List DatasetP0) (k : String) (hk : k ≠ "") :
    (declsFor k (pairsOf catalog) = [] → buildAttributeIndex catalog k = none) ∧
    (∀ (d0 : DatasetP0 × RawAttr) (rest : List (DatasetP0 × RawAttr)),
       declsFor k (pairsOf catalog) = d0 :: rest →
       ∃ e, buildAttributeIndex catalog k = some e ∧
         e.type = firstNonEmpty ((d0 :: rest).map (fun p => p.2.type)) ∧
         e.description = firstNonEmpty ((d0 :: rest).map (fun p => p.2.description)) ∧
         e.label = (if d0.2.label = "" then k else d0.2.label)) := by
  constructor
  · intro h
    rw [buildAttributeIndex, rawAttributeIndex_spec_nil catalog k hk h]
    rfl
  · intro d0 rest h
    refine ⟨_, buildAttributeIndex_spec_cons catalog k hk d0 rest h, ?_, ?_, ?_⟩
    · rw [finalizeEntry_type]
      rfl
    · rw [finalizeEntry_description]
      rfl
    · rw [finalizeEntry_label]
      rfl

/-- Witness for C8 on the concrete catalog `[c8A, c8B]`. -/
theorem claim_C8_witness :
    ∃ e, buildAttributeIndex [c8A, c8B] "X" = some e ∧
      e.type = firstNonEmpty
        ([(c8A, ({ name := "X", label := "", type := "", description := "",
                   nullable := none, exampleValue := none, domain := none } : RawAttr)),
          (c8B, ({ name := "X", label := "Nice", type := "", description := "",
                   nullable := none, exampleValue := none, domain := none } : RawAttr))].map
          (fun p => p.2.type)) ∧
      e.description = firstNonEmpty
        ([(c8A, ({ name := "X", label := "", type := "", description := "",
                   nullable := none, exampleValue := none, domain := none } : RawAttr)),
          (c8B, ({ name := "X", label := "Nice", type := "", description := "",
                   nullable := none, exampleValue := none, domain := none } : RawAttr))].map
          (fun p => p.2.description)) ∧
      e.label = (if ({ name := "X", label := "", type := "", description := "",
                       nullable := none, exampleValue := none,
                       domain := none } : RawAttr).label = "" then "X"
                 else ({ name := "X", label := "", type := "", description := "",
                         nullable := none, exampleValue := none,
                         domain := none } : RawAttr).label) :=
  (claim_C8 [c8A, c8B] "X" (by decide)).2
    (c8A, { name := "X", label := "", type := "", description := "",
            nullable := none, exampleValue := none, domain := none })
    [(c8B, { name := "X", label := "Nice", type := "", description := "",
             nullable := none, exampleValue := none, domain := none })]
    (by rfl)

theorem dedupeDomainsGo_sublist (l : List DomainValue) :
    ∀ seen, List.Sublist (dedupeDomainsGo seen l) l := by
  induction l with
  | nil => intro seen; simp [dedupeDomainsGo]
  | cons v rest ih =>
      intro seen
      rw [dedupeDomainsGo]
      by_cases h : domKey v ∈ seen
      · rw [if_pos h]
        exact (ih seen).cons v
      · rw [if_neg h]
        exact (ih _).cons₂ v

theorem dedupeDomainsGo_key_not_seen (l : List DomainValue) :
    ∀ seen w, w ∈ dedupeDomainsGo seen l → domKey w ∉ seen := by
  induction l with
  | nil => intro seen w h; exact absurd h (List.not_mem_nil _)
  | cons v rest ih =>
      intro seen w h
      rw [dedupeDomainsGo] at h
      by_cases hv : domKey v ∈ seen
      · rw [if_pos hv] at h
        exact ih seen w h
      · rw [if_neg hv] at h
        rcases List.mem_cons.mp h with h | h
        · rw [h]
          exact hv
        · intro hw
          exact ih _ w h (List.mem_cons_of_mem _ hw)

theorem dedupeDomainsGo_keys_nodup (l : List DomainValue) :
    ∀ seen, ((dedupeDomainsGo seen l).map domKey).Nodup := by
  induction l with
  | nil => intro seen; simp [dedupeDomainsGo]
  | cons v rest ih =>
      intro seen
      rw [dedupeDomainsGo]
      by_cases hv : domKey v ∈ seen
      · rw [if_pos hv]
        exact ih seen
      · rw [if_neg hv]
        rw [List.map_cons]
        refine List.nodup_cons.mpr ⟨?_, ih _⟩
        intro hmem
        rcases List.mem_map.mp hmem with ⟨w, hw, hkey⟩
        refine dedupeDomainsGo_key_not_seen rest _ w hw ?_
        rw [hkey]
        exact List.mem_cons_self _ _

theorem dedupeDomainsGo_find (l : List DomainValue) :
    ∀ seen w, w ∈ dedupeDomainsGo seen l →
      l.find? (fun v => domKey v = domKey w) = some w := by
  induction l with
  | nil => intro seen w h; exact absurd h (List.not_mem_nil _)
  | cons v rest ih =>
      intro seen w h
      rw [dedupeDomainsGo] at h
      by_cases hv : domKey v ∈ seen
      · rw [if_pos hv] at h
        have hw := ih seen w h
        have hne : ¬(domKey v = domKey w) := by
          intro he
          exact dedupeDomainsGo_key_not_seen rest seen w h (he ▸ hv)
        rw [List.find?_cons]
        simp only [hne, decide_False]
        exact hw
      · rw [if_neg hv] at h
        rcases List.mem_cons.mp h with h | h
        · subst h
          rw [List.find?_cons]
          simp
        · have hw := ih _ w h
          have hne : ¬(domKey v = domKey w) := by
            intro he
            refine dedupeDomainsGo_key_not_seen rest _ w h ?_
            rw [← he]
            exact List.mem_cons_self _ _
          rw [List.find?_cons]
          simp only [hne, decide_False]
          exact hw

theorem dedupeDomainsGo_complete (l : List DomainValue) :
    ∀ seen v, v ∈ l →
      domKey v ∈ seen ∨ domKey v ∈ (dedupeDomainsGo seen l).map domKey := by
  induction l with
  | nil => intro seen v h; exact absurd h (List.not_mem_nil _)
  | cons x rest ih =>
      intro seen v h
      rw [dedupeDomainsGo]
      by_cases hx : domKey x ∈ seen
      · rw [if_pos hx]
        rcases List.mem_cons.mp h with h | h
        · rw [h]
          exact Or.inl hx
        · exact ih seen v h
      · rw [if_neg hx]
        rw [List.map_cons]
        rcases List.mem_cons.mp h with h | h
        · rw [h]
          exact Or.inr (List.mem_cons_self _ _)
        · rcases ih (domKey x :: seen) v h with hh | hh
          · rcases List.mem_cons.mp hh with hh | hh
            · rw [hh]
              exact Or.inr (List.mem_cons_self _ _)
            · exact Or.inl hh
          · exact Or.inr (List.mem_cons_of_mem _ hh)

/-- Claim C5: after finalization, an attribute's `domainValues` has no two
entries with the same composite `value|label` key, is a subsequence of the
aggregated encounter sequence, keeps exactly the first occurrence of each
encountered key, and in particular the input `[{value:"1",label:"Yes"},
{value:"1",label:"Yes"}, {value:"1",label:"yes"}]` dedupes to exactly the
`1|Yes` and `1|yes` entries. -/
theorem claim_C5 :
    (∀ (catalog : List DatasetP0) (k : String) (e : AttrEntry), k ≠ "" →
       buildAttributeIndex catalog k = some e →
       ((e.domainValues.map domKey).Nodup ∧
        List.Sublist e.domainValues (encounterDomain catalog k) ∧
        (∀ w ∈ e.domainValues,
           (encounterDomain catalog k).find? (fun v => domKey v = domKey w) = some w) ∧
        (∀ v ∈ encounterDomain catalog k, domKey v ∈ e.domainValues.map domKey))) ∧
    buildAttributeIndex [exDomainDS] "status" = some exDomainEntry := by
  constructor
  · intro catalog k e hk hb
    cases hD : declsFor k (pairsOf catalog) with
    | nil =>
        rw [buildAttributeIndex, rawAttributeIndex_spec_nil catalog k hk hD] at hb
        cases hb
    | cons d0 rest =>
        rw [buildAttributeIndex_spec_cons catalog k hk d0 rest hD] at hb
        have he : e = finalizeEntry (entrySpec k d0 rest) := (Option.some.inj hb).symm
        have henc : encounterDomain catalog k =
            (d0 :: rest).flatMap (fun p => (p.2.domain.getD []).filterMap normDomain) := by
          rw [encounterDomain, hD]
        have hdv : e.domainValues =
            (if (encounterDomain catalog k).isEmpty then encounterDomain catalog k
             else dedupeDomainsGo [] (encounterDomain catalog k)) := by
          rw [he, henc]
          rfl
        by_cases hempty : (encounterDomain catalog k).isEmpty
        · have hnil : encounterDomain catalog k = [] := List.isEmpty_iff.mp hempty
          rw [hdv, if_pos hempty, hnil]
          refine ⟨by simp, by simp, ?_, ?_⟩
          · intro w hw
            exact absurd hw (List.not_mem_nil _)
          · intro v hv
            exact absurd hv (List.not_mem_nil _)
        · rw [hdv, if_neg hempty]
          refine ⟨dedupeDomainsGo_keys_nodup _ [], dedupeDomainsGo_sublist _ [], ?_, ?_⟩
          · intro w hw
            exact dedupeDomainsGo_find _ [] w hw
          · intro v hv
            rcases dedupeDomainsGo_complete _ [] v hv with h | h
            · exact absurd h (List.not_mem_nil _)
            · exact h
  · rfl

/-- Witness for C5 at the concrete one-dataset catalog `[exDomainDS]`. -/
theorem claim_C5_witness :
    (exDomainEntry.domainValues.map domKey).Nodup ∧
    List.Sublist exDomainEntry.domainValues (encounterDomain [exDomainDS] "status") := by
  have h := claim_C5.1 [exDomainDS] "status" exDomainEntry (by decide) claim_C5.2
  exact ⟨h.1, h.2.1⟩

theorem getLast?_cons_match {α : Type} (a : α) (l : List α) :
    (a :: l).getLast? =
      (match l.getLast? with
       | some x => some x
       | none => some a) := by
  induction l generalizing a with
  | nil => rfl
  | cons b t ih =>
      rw [List.getLast?_cons_cons]
      rw [ih b]
      cases ht : t.getLast? with
      | some x => rfl
      | none =>
          cases t with
          | nil => rfl
          | cons c u => simp at ht

theorem datasetTables_fst (dss : List DatasetRec) :
    ∀ (t : (String → Option DatasetRec) × (String → List DatasetRec)),
      (dss.foldl datasetStep t).1 =
        dss.foldl (fun m ds => if ds.id ≠ "" then strMapUpd m ds.id ds else m) t.1 := by
  induction dss with
  | nil => intro t; rfl
  | cons ds dss ih =>
      intro t
      rw [List.foldl_cons, List.foldl_cons, ih]
      rfl

theorem datasetTables_snd (dss : List DatasetRec) :
    ∀ (t : (String → Option DatasetRec) × (String → List DatasetRec)),
      (dss.foldl datasetStep t).2 =
        dss.foldl (fun r ds => ds.attribute_ids.foldl (fun r i => listMapPush r i ds) r) t.2 := by
  induction dss with
  | nil => intro t; rfl
  | cons ds dss ih =>
      intro t
      rw [List.foldl_cons, List.foldl_cons, ih]
      rfl

theorem push_fold_apply (ids : List String) (ds : DatasetRec) :
    ∀ (r : String → List DatasetRec) (a : String),
      (ids.foldl (fun r i => listMapPush r i ds) r) a =
        r a ++ List.replicate (ids.count a) ds := by
  induction ids with
  | nil => intro r a; simp
  | cons i ids ih =>
      intro r a
      rw [List.foldl_cons, ih]
      by_cases hai : a = i
      · have hcount : (i :: ids).count a = ids.count a + 1 := by
          rw [List.count_cons]
          simp [hai]
        rw [hcount]
        have hpush : listMapPush r i ds a = r a ++ [ds] := by
          rw [listMapPush]
          rw [if_pos hai, hai]
        rw [hpush]
        simp [List.replicate_succ, List.append_assoc]
      · have hne : i ≠ a := fun h => hai h.symm
        have hcount : (i :: ids).count a = ids.count a := by
          rw [List.count_cons]
          simp [hne]
        rw [hcount]
        have hpush : listMapPush r i ds a = r a := by
          rw [listMapPush]
          rw [if_neg hai]
        rw [hpush]

theorem revIndex_fold_apply (dss : List DatasetRec) :
    ∀ (r : String → List DatasetRec) (a : String),
      (dss.foldl (fun r ds => ds.attribute_ids.foldl (fun r i => listMapPush r i ds) r) r) a =
        r a ++ dss.flatMap (fun ds => List.replicate (ds.attribute_ids.count a) ds) := by
  induction dss with
  | nil => intro r a; simp
  | cons ds dss ih =>
      intro r a
      rw [List.foldl_cons, ih, push_fold_apply]
      rw [List.flatMap_cons, List.append_assoc]

theorem getDatasetsForAttribute_eq (cache : CatalogCache) (a : String) :
    getDatasetsForAttribute cache a =
      cache.datasets.flatMap (fun ds => List.replicate (ds.attribute_ids.count a) ds) := by
  rw [getDatasetsForAttribute, datasetTablesOf, datasetTables_snd, revIndex_fold_apply]
  rfl

theorem count_flatMap_replicate (dss : List DatasetRec) (d : DatasetRec) (a : String) :
    (dss.flatMap (fun ds => List.replicate (ds.attribute_ids.count a) ds)).count d =
      dss.count d * d.attribute_ids.count a := by
  induction dss with
  | nil => simp
  | cons ds dss ih =>
      rw [List.flatMap_cons, List.count_append, ih]
      by_cases hd : ds = d
      · subst hd
        rw [List.count_cons_self, List.count_replicate]
        simp [Nat.succ_mul, Nat.add_comm]
      · rw [List.count_cons_of_ne (fun h => hd h.symm) dss, List.count_replicate]
        have : (ds == d) = false := by
          simp [hd]
        rw [this]
        simp

theorem idTable_fold_apply (dss : List DatasetRec) :
    ∀ (m : String → Option DatasetRec) (i : String), i ≠ "" →
      (dss.foldl (fun m ds => if ds.id ≠ "" then strMapUpd m ds.id ds else m) m) i =
        (match (dss.filter (fun ds => ds.id = i)).getLast? with
         | some d => some d
         | none => m i) := by
  induction dss with
  | nil => intro m i hi; rfl
  | cons ds dss ih =>
      intro m i hi
      rw [List.foldl_cons]
      rw [ih _ i hi]
      by_cases hdi : ds.id = i
      · have hne : ds.id ≠ "" := by rw [hdi]; exact hi
        have hfil : (ds :: dss).filter (fun ds => ds.id = i) =
            ds :: dss.filter (fun ds => ds.id = i) := by
          simp [List.filter_cons, hdi]
        rw [hfil, getLast?_cons_match]
        have hm : (if ds.id ≠ "" then strMapUpd m ds.id ds else m) i = some ds := by
          rw [if_pos hne, strMapUpd]
          rw [if_pos hdi.symm]
        cases hl : (dss.filter (fun ds => ds.id = i)).getLast? with
        | some d => rfl
        | none => exact hm
      · have hfil : (ds :: dss).filter (fun ds => ds.id = i) =
            dss.filter (fun ds => ds.id = i) := by
          simp [List.filter_cons, hdi]
        rw [hfil]
        have hm : (if ds.id ≠ "" then strMapUpd m ds.id ds else m) i = m i := by
          by_cases hne : ds.id = ""
          · rw [if_neg (fun h => h hne)]
          · rw [if_pos hne, strMapUpd]
            rw [if_neg (fun h => hdi h.symm)]
        cases hl : (dss.filter (fun ds => ds.id = i)).getLast? with
        | some d => rfl
        | none => exact hm

theorem idTable_fold_sound (dss : List DatasetRec) :
    ∀ (m : String → Option DatasetRec) (i : String) (v : DatasetRec),
      (dss.foldl (fun m ds => if ds.id ≠ "" then strMapUpd m ds.id ds else m) m) i = some v →
      m i = some v ∨ (v ∈ dss ∧ v.id = i ∧ i ≠ "") := by
  induction dss with
  | nil => intro m i v h; exact Or.inl h
  | cons ds dss ih =>
      intro m i v h
      rw [List.foldl_cons] at h
      rcases ih _ i v h with h2 | h2
      · by_cases hne : ds.id ≠ ""
        · rw [if_pos hne, strMapUpd] at h2
          by_cases hik : i = ds.id
          · rw [if_pos hik] at h2
            have hv : v = ds := (Option.some.inj h2).symm
            refine Or.inr ⟨?_, ?_, ?_⟩
            · rw [hv]; exact List.mem_cons_self _ _
            · rw [hv, ← hik]
            · rw [hik]; exact hne
          · rw [if_neg hik] at h2
            exact Or.inl h2
        · rw [if_neg hne] at h2
          exact Or.inl h2
      · exact Or.inr ⟨List.mem_cons_of_mem _ h2.1, h2.2⟩

theorem getDatasetById_eq (cache : CatalogCache) (i : String) (hi : i ≠ "") :
    getDatasetById cache i =
      (match (cache.datasets.filter (fun ds => ds.id = i)).getLast? with
       | some d => some d
       | none => none) := by
  rw [getDatasetById, datasetTablesOf, datasetTables_fst]
  exact idTable_fold_apply cache.datasets _ i hi

theorem getDatasetById_sound (cache : CatalogCache) (i : String) (v : DatasetRec)
    (h : getDatasetById cache i = some v) : v ∈ cache.datasets ∧ v.id = i ∧ i ≠ "" := by
  rw [getDatasetById, datasetTablesOf, datasetTables_fst] at h
  rcases idTable_fold_sound cache.datasets _ i v h with h2 | h2
  · cases h2
  · exact h2

theorem filterMap_lookup_all_none (f : String → Option AttrRec) (ids : List String)
    (h : ∀ i ∈ ids, f i = none) : (ids.map f).filterMap (fun o => o) = [] := by
  induction ids with
  | nil => rfl
  | cons i ids ih =>
      rw [List.map_cons, List.filterMap_cons, h i (List.mem_cons_self _ _)]
      exact ih (fun j hj => h j (List.mem_cons_of_mem _ hj))

theorem filterMap_lookup_length (f : String → Option AttrRec) (ids : List String) :
    ((ids.map f).filterMap (fun o => o)).length +
      (ids.filter (fun i => (f i).isNone)).length = ids.length := by
  induction ids with
  | nil => rfl
  | cons i ids ih =>
      rw [List.map_cons, List.filterMap_cons, List.filter_cons]
      cases hf : f i with
      | none =>
          simp only [hf, Option.isNone_none, decide_True, if_pos, List.length_cons]
          omega
      | some a =>
          simp only [hf, Option.isNone_some, decide_False, if_neg, List.length_cons,
            Bool.false_eq_true, ite_false]
          omega

/-- Claim C4 (amended): in the built reverse index, a dataset record `d`
appears in `getDatasetsForAttribute(a)` once per occurrence of the record
in the dataset list times the number of occurrences of `a` in its
`attribute_ids` — so exactly once only when both counts are one; the push
is unconditional, so whether attribute `a` exists in the attribute table
is irrelevant. -/
theorem claim_C4 (cache : CatalogCache) (d : DatasetRec) (a : String) :
    (getDatasetsForAttribute cache a).count d =
      cache.datasets.count d * d.attribute_ids.count a := by
  rw [getDatasetsForAttribute_eq, count_flatMap_replicate]

/-- Counterexample to C4 as stated: `c4DupDS` lists the existing attribute
`x` twice in its `attribute_ids`, and appears twice — not exactly once —
in `getDatasetsForAttribute "x"`. -/
theorem claim_C4_counterexample :
    getAttributeById c4Cache "x" = some { id := "x", label := "X label" } ∧
    "x" ∈ c4DupDS.attribute_ids ∧
    getDatasetsForAttribute c4Cache "x" = [c4DupDS, c4DupDS] ∧
    ¬(getDatasetsForAttribute c4Cache "x").count c4DupDS = 1 := by
  refine ⟨rfl, by decide, rfl, by decide⟩

/-- Claim C9: the id-keyed dataset table resolves a duplicated id to the
last record with that id in input order, while the reverse index receives
one entry per record occurrence (no dedup), so its cell lengths add up
additively over the dataset list. -/
theorem claim_C9 (cache : CatalogCache) :
    (∀ i : String, i ≠ "" →
       getDatasetById cache i =
         (match (cache.datasets.filter (fun ds => ds.id = i)).getLast? with
          | some d => some d
          | none => none)) ∧
    (∀ a : String, (getDatasetsForAttribute cache a).length =
       (cache.datasets.map (fun ds => ds.attribute_ids.count a)).sum) := by
  constructor
  · intro i hi
    exact getDatasetById_eq cache i hi
  · intro a
    rw [getDatasetsForAttribute_eq, List.length_flatMap]
    have hcomp : (List.length ∘ fun ds : DatasetRec =>
        List.replicate (List.count a ds.attribute_ids) ds) =
        fun ds : DatasetRec => List.count a ds.attribute_ids := by
      funext ds
      show (List.replicate (List.count a ds.attribute_ids) ds).length =
        List.count a ds.attribute_ids
      rw [List.length_replicate]
    rw [hcomp]

/-- Witness for C9 on the duplicated-id cache `c9Cache` (where the match
resolves to the second record and the reverse-index cell has length two). -/
theorem claim_C9_witness :
    getDatasetById c9Cache "dup" =
      (match (c9Cache.datasets.filter (fun ds => ds.id = "dup")).getLast? with
       | some d => some d
       | none => none) ∧
    (getDatasetsForAttribute c9Cache "x").length =
      (c9Cache.datasets.map (fun ds => ds.attribute_ids.count "x")).sum :=
  ⟨(claim_C9 c9Cache).1 "dup" (by decide), (claim_C9 c9Cache).2 "x"⟩

/-- Claim C10: a dataset record without an id is absent from the id-keyed
table — no lookup ever returns it — yet it is still pushed into the
reverse index for every id in its `attribute_ids`. -/
theorem claim_C10 (cache : CatalogCache) (d : DatasetRec) (hmem : d ∈ cache.datasets)
    (hid : d.id = "") :
    (∀ x : String, ¬getDatasetById cache x = some d) ∧
    (∀ a ∈ d.attribute_ids, d ∈ getDatasetsForAttribute cache a) := by
  constructor
  · intro x h
    rcases getDatasetById_sound cache x d h with ⟨_, hdx, hx⟩
    rw [hid] at hdx
    exact hx hdx.symm
  · intro a ha
    rw [getDatasetsForAttribute_eq]
    refine List.mem_flatMap.mpr ⟨d, hmem, ?_⟩
    rw [List.mem_replicate]
    exact ⟨Nat.pos_iff_ne_zero.mp (List.count_pos_iff.mpr ha), rfl⟩

/-- Witness for C10 on the concrete cache `c10Cache`. -/
theorem claim_C10_witness :
    ¬getDatasetById c10Cache "" = some c10NoIdDS ∧
    c10NoIdDS ∈ getDatasetsForAttribute c10Cache "x" :=
  have h := claim_C10 c10Cache c10NoIdDS (by decide) rfl
  ⟨h.1 "", h.2 "x" (by decide)⟩

/-- Claim C7: `getAttributesForDataset` is total and never raises on a
miss: when every id of `attribute_ids` is dangling it returns `[]`, and in
general each dangling id is silently dropped, the result being exactly as
much shorter as there are dangling ids. -/
theorem claim_C7 (cache : CatalogCache) (ds : DatasetRec) :
    ((∀ i ∈ ds.attribute_ids, getAttributeById cache i = none) →
       getAttributesForDataset cache ds = []) ∧
    (getAttributesForDataset cache ds).length +
      (ds.attribute_ids.filter (fun i => (attributeByIdOf cache i).isNone)).length =
      ds.attribute_ids.length := by
  constructor
  · intro h
    rw [getAttributesForDataset]
    exact filterMap_lookup_all_none _ _ (fun i hi => h i hi)
  · rw [getAttributesForDataset]
    exact filterMap_lookup_length _ _

/-- Witness for C7: the all-dangling dataset `c7GhostDS` yields `[]`. -/
theorem claim_C7_witness : getAttributesForDataset c7Cache c7GhostDS = [] :=
  (claim_C7 c7Cache c7GhostDS).1 (by decide)

theorem lookup_some_mem_fst (l : List (String × Json)) (k : String) (v : Json)
    (h : List.lookup k l = some v) : k ∈ l.map Prod.fst := by
  induction l with
  | nil => cases h
  | cons p l ih =>
      obtain ⟨a, b⟩ := p
      by_cases hk : k = a
      · rw [List.map_cons, hk]
        exact List.mem_cons_self _ _
      · have hbeq : (k == a) = false := by simp [hk]
        simp only [List.lookup, hbeq] at h
        exact List.mem_cons_of_mem _ (ih h)

theorem filterMap_key_count (ks : List String) (g : String → Option Change) (k : String)
    (hnd : ks.Nodup) (hg : ∀ k2 c, g k2 = some c → c.key = k2) :
    ((ks.filterMap g).filter (fun c => c.key = k)).length =
      (if k ∈ ks then
        (match g k with
         | some _ => 1
         | none => 0)
       else 0) := by
  induction ks with
  | nil => simp
  | cons k2 ks ih =>
      have hnd2 := List.nodup_cons.mp hnd
      rw [List.filterMap_cons]
      by_cases hk : k2 = k
      · subst hk
        have hknot : k2 ∉ ks := hnd2.1
        cases hgk : g k2 with
        | none =>
            rw [ih hnd2.2]
            simp [hknot, hgk]
        | some c =>
            have hc : c.key = k2 := hg _ _ hgk
            simp [List.filter_cons, hc, ih hnd2.2, hknot, hgk]
      · cases hgk : g k2 with
        | none =>
            rw [ih hnd2.2]
            by_cases hmem : k ∈ ks
            · rw [if_pos hmem, if_pos (List.mem_cons_of_mem _ hmem)]
            · have hnm : k ∉ k2 :: ks := by
                intro hm
                rcases List.mem_cons.mp hm with he | hm2
                · exact hk he.symm
                · exact hmem hm2
              rw [if_neg hmem, if_neg hnm]
        | some c =>
            have hc : c.key = k2 := hg _ _ hgk
            have hck : ¬(c.key = k) := by
              rw [hc]
              exact hk
            rw [List.filter_cons]
            simp only [hck, decide_False, Bool.false_eq_true, if_neg, ite_false]
            rw [ih hnd2.2]
            by_cases hmem : k ∈ ks
            · rw [if_pos hmem, if_pos (List.mem_cons_of_mem _ hmem)]
            · have hnm : k ∉ k2 :: ks := by
                intro hm
                rcases List.mem_cons.mp hm with he | hm2
                · exact hk he.symm
                · exact hmem hm2
              rw [if_neg hmem, if_neg hnm]

/-- Claim C6: after both sides are compacted, the diff iterates the
deduplicated union of the keys of either side and emits exactly one change
record per key whose (structurally compared) values differ — none for keys
whose values agree; in particular `{title:"A", notes:""}` versus
`{title:"A", notes:"new"}` yields exactly the one record for `notes`. -/
theorem claim_C6 :
    (∀ (original updated : List (String × Json)) (k : String),
       ((computeChanges (compactObject original) (compactObject updated)).filter
           (fun c => c.key = k)).length =
         (if List.lookup k (compactObject original) = List.lookup k (compactObject updated)
          then 0 else 1)) ∧
    computeChanges (compactObject [("title", Json.str "A"), ("notes", Json.str "")])
        (compactObject [("title", Json.str "A"), ("notes", Json.str "new")]) =
      [{ key := "notes", fromValue := none, toValue := some (Json.str "new") }] := by
  constructor
  · intro original updated k
    have hcc : ∀ (o u : List (String × Json)), computeChanges o u =
        (insertionDedup (o.map Prod.fst ++ u.map Prod.fst)).filterMap
          (fun k2 => if List.lookup k2 o ≠ List.lookup k2 u
                     then some ⟨k2, List.lookup k2 o, List.lookup k2 u⟩ else none) :=
      fun o u => rfl
    rw [hcc]
    have hcount := filterMap_key_count
      (insertionDedup ((compactObject original).map Prod.fst ++
        (compactObject updated).map Prod.fst))
      (fun k2 => if List.lookup k2 (compactObject original) ≠
                    List.lookup k2 (compactObject updated)
                 then some ⟨k2, List.lookup k2 (compactObject original),
                            List.lookup k2 (compactObject updated)⟩ else none)
      k (insertionDedup_nodup _)
      (fun k2 c hc => by
        dsimp only at hc
        by_cases hne : List.lookup k2 (compactObject original) ≠
            List.lookup k2 (compactObject updated)
        · rw [if_pos hne] at hc
          rw [← Option.some.inj hc]
        · rw [if_neg hne] at hc
          cases hc)
    rw [hcount]
    dsimp only
    by_cases heq : List.lookup k (compactObject original) =
        List.lookup k (compactObject updated)
    · rw [if_pos heq]
      have hnone : (if List.lookup k (compactObject original) ≠
            List.lookup k (compactObject updated)
          then some (⟨k, List.lookup k (compactObject original),
                      List.lookup k (compactObject updated)⟩ : Change) else none) = none :=
        if_neg (fun h => h heq)
      rw [hnone]
      simp
    · rw [if_neg heq]
      have hsome : (if List.lookup k (compactObject original) ≠
            List.lookup k (compactObject updated)
          then some (⟨k, List.lookup k (compactObject original),
                      List.lookup k (compactObject updated)⟩ : Change) else none) =
          some ⟨k, List.lookup k (compactObject original),
                List.lookup k (compactObject updated)⟩ :=
        if_pos heq
      rw [hsome]
      have hmem : k ∈ insertionDedup ((compactObject original).map Prod.fst ++
          (compactObject updated).map Prod.fst) := by
        rw [mem_insertionDedup]
        cases ho : List.lookup k (compactObject original) with
        | some v => exact List.mem_append.mpr (Or.inl (lookup_some_mem_fst _ k v ho))
        | none =>
            cases hu : List.lookup k (compactObject updated) with
            | some v => exact List.mem_append.mpr (Or.inr (lookup_some_mem_fst _ k v hu))
            | none =>
                rw [ho, hu] at heq
                exact absurd rfl heq
      rw [if_pos hmem]
  · rfl

/-- Claim C3 (amended): the app.js and part_001 loaders raise on a non-ok
response and on an unparseable body, succeed only with a genuinely parsed
body, and normalize missing `objects`/`datasets`/`attributes` keys to
empty sequences after a successful parse; the part_000 loader, by
contrast, never raises to its caller — a non-ok response or an unparseable
body leaves the module catalog unchanged and only writes a message to the
UI, the function returning normally. -/
theorem claim_C3 :
    (∀ r : Response, r.ok = false →
       loadCatalogAppjs r = .error (.httpStatus r.status) ∧
       loadCatalogP001 r = .error (.httpStatus r.status)) ∧
    (∀ r : Response, r.ok = true → r.body = none →
       loadCatalogAppjs r = .error .malformedJson ∧
       loadCatalogP001 r = .error .malformedJson) ∧
    (∀ (r : Response) (j : Json), loadCatalogAppjs r = .ok j →
       r.ok = true ∧ r.body = some j) ∧
    (∀ (r : Response) (p : List Json × List Json), loadCatalogP001 r = .ok p →
       r.ok = true ∧
       ∃ raw, r.body = some raw ∧ p = (p001ObjectsOf raw, p001AttributesOf raw)) ∧
    (∀ fs : JsonObj, fs.get "attributes" = none → p001AttributesOf (.obj fs) = []) ∧
    (∀ fs : JsonObj, fs.get "objects" = none → fs.get "datasets" = none →
       p001ObjectsOf (.obj fs) = []) ∧
    (∀ cache : Json, cache.getField "datasets" = none → appjsDatasetsOf cache = some []) ∧
    (∀ cache : Json, cache.getField "attributes" = none →
       appjsAttributesOf cache = some []) ∧
    (∀ r : Response, r.ok = false →
       loadCatalogP0 r = { newCatalog := none, uiMessage := some (.httpError r.status) }) ∧
    (∀ r : Response, r.ok = true → r.body = none →
       loadCatalogP0 r = { newCatalog := none, uiMessage := some .consoleError }) ∧
    (∀ (r : Response) (j : Json), r.ok = true → r.body = some j →
       (∀ xs : JsonArr, ¬j = Json.arr xs) →
       loadCatalogP0 r = { newCatalog := none, uiMessage := some .notAnArray }) := by
  refine ⟨?_, ?_, ?_, ?_, ?_, ?_, ?_, ?_, ?_, ?_, ?_⟩
  · intro r h
    constructor <;> simp [loadCatalogAppjs, loadCatalogP001, h]
  · intro r hok hb
    constructor <;> simp [loadCatalogAppjs, loadCatalogP001, hok, hb]
  · intro r j h
    rw [loadCatalogAppjs] at h
    cases hok : r.ok with
    | false => rw [hok] at h; cases h
    | true =>
        rw [hok] at h
        simp only [Bool.not_true, Bool.false_eq_true, if_neg, ite_false] at h
        cases hb : r.body with
        | none => rw [hb] at h; cases h
        | some j2 =>
            rw [hb] at h
            exact ⟨rfl, by rw [Except.ok.inj h]⟩
  · intro r p h
    rw [loadCatalogP001] at h
    cases hok : r.ok with
    | false => rw [hok] at h; cases h
    | true =>
        rw [hok] at h
        simp only [Bool.not_true, Bool.false_eq_true, if_neg, ite_false] at h
        cases hb : r.body with
        | none => rw [hb] at h; cases h
        | some raw =>
            rw [hb] at h
            exact ⟨rfl, raw, rfl, (Except.ok.inj h).symm⟩
  · intro fs h
    rw [p001AttributesOf]
    show (match (Json.obj fs).getField "attributes" with
          | some (.arr l) => l.toList
          | _ => []) = []
    rw [Json.getField, h]
  · intro fs ho hd
    rw [p001ObjectsOf]
    show (match (Json.obj fs).getField "objects" with
          | some (.arr l) => l.toList
          | _ =>
              match (Json.obj fs).getField "datasets" with
              | some (.arr l) => l.toList
              | _ => []) = []
    rw [Json.getField, ho]
    show (match (Json.obj fs).getField "datasets" with
          | some (.arr l) => l.toList
          | _ => []) = []
    rw [Json.getField, hd]
  · intro cache h
    rw [appjsDatasetsOf, h]
  · intro cache h
    rw [appjsAttributesOf, h]
  · intro r h
    rw [loadCatalogP0, p0Attempt, h]
    rfl
  · intro r hok hb
    rw [loadCatalogP0, p0Attempt, hok, hb]
    rfl
  · intro r j hok hb hna
    rw [loadCatalogP0, p0Attempt, hok, hb]
    cases j with
    | arr xs => exact absurd rfl (hna xs)
    | null => rfl
    | bool b => rfl
    | num n => rfl
    | str s => rfl
    | obj fs => rfl

/-- Counterexample to C3 as stated: on an unsuccessful HTTP response the
part_000 loader does not fail with an error value or raised fault — its
`try`/`catch` and early returns make it resolve normally, leaving the
module catalog unchanged and only recording a UI error message. -/
theorem claim_C3_counterexample :
    loadCatalogP0 { ok := false, status := 500, body := none } =
      { newCatalog := none, uiMessage := some (.httpError 500) } := rfl

/-- Witness for C3 at a concrete failed response. -/
theorem claim_C3_witness :
    loadCatalogAppjs { ok := false, status := 404, body := none } =
      .error (.httpStatus 404) ∧
    loadCatalogP001 { ok := false, status := 404, body := none } =
      .error (.httpStatus 404) :=
  claim_C3.1 { ok := false, status := 404, body := none } rfl
